import Mathlib

/-!
# gokit/ginx: boot ledger and session adapter

A shallow embedding of `boot/boot.go` and `sessions/sessions.go`.

* Go maps are association lists; a lookup takes the first binding of a key,
  an assignment drops every old binding of the key and adds the new one, and
  `delete` drops every binding of the key.  The order of the list stands for
  the (unspecified) iteration order of the map.  The keys of the groups map are
  strings; the keys of a session's `Values` are `interface{}` values, compared
  with Go's `==` (a NaN equals nothing) and rejected with a panic when their
  type cannot be hashed.
* Package-level variables of `boot` are the fields of `Boot.State`.
* A call of a function value is recorded in a log, so that "is invoked" can be
  stated.
-/

namespace Ginx

/-! ## Go maps -/

/-- Two-valued map read `v, ok := m[k]`: the value bound to `k`, if any. -/
def mapLookup {κ ν : Type} [DecidableEq κ] (m : List (κ × ν)) (k : κ) : Option ν :=
  match m with
  | [] => none
  | (k', v) :: rest => if k' = k then some v else mapLookup rest k

/-- Builtin `delete(m, k)`. -/
def mapDelete {κ ν : Type} [DecidableEq κ] (m : List (κ × ν)) (k : κ) : List (κ × ν) :=
  m.filter (fun p => decide (p.1 ≠ k))

/-- Assignment `m[k] = v`. -/
def mapSet {κ ν : Type} [DecidableEq κ] (m : List (κ × ν)) (k : κ) (v : ν) : List (κ × ν) :=
  mapDelete m k ++ [(k, v)]

namespace Boot

/-! ## boot/boot.go -/

/-- A `*gin.RouterGroup`: `none` is the nil pointer, `some i` the group `i`. -/
abbrev RouterGroupPtr := Option Nat

/-- A caller-supplied `func(group *gin.RouterGroup)`.  `adds` lists the
`AddGroup` calls it makes, `label` tells one function from another.  What it
does to the engine is not part of the package state.  Callbacks that register
further callbacks while `Init` runs are not covered: registration ends before
`Init` starts. -/
structure GroupFunc where
  label : Nat
  adds : List (String × RouterGroupPtr)
deriving DecidableEq, Repr

/-- A `func(app *gin.Engine)` value held in a callback queue: a caller-supplied
function (with its label and the `AddGroup` calls it makes), or the closure
built by `GroupByName` (boot.go lines 53-59) around a group name and a
callback. -/
inductive AppFunc where
  | user (label : Nat) (adds : List (String × RouterGroupPtr))
  | byName (groupName : String) (callback : GroupFunc)
deriving DecidableEq, Repr

/-- What the replay does, in order. -/
inductive Event where
  /-- Init ran `callback(app)` on a queue entry (lines 67, 72, 77). -/
  | call (f : AppFunc)
  /-- The closure of `GroupByName` ran `callback(g)` (line 55). -/
  | callGroup (groupName : String) (callback : GroupFunc) (g : RouterGroupPtr)
  /-- The closure of `GroupByName` logged the missing group (line 57). -/
  | warn (groupName : String)
deriving DecidableEq, Repr

/-- The package-level variables of `boot`, and the log of calls. -/
structure State where
  groupMap : List (String × RouterGroupPtr)
  middlewaresCallback : List AppFunc
  routersCallback : List AppFunc
  groupsCallback : List AppFunc
  log : List Event
deriving DecidableEq, Repr

/-- The package state at program start: an empty map, three nil slices. -/
def State.init : State :=
  { groupMap := [], middlewaresCallback := [], routersCallback := [],
    groupsCallback := [], log := [] }

/-- Source `AddGroup`. -/
def AddGroup (name : String) (group : RouterGroupPtr) (s : State) : State :=
  { s with groupMap := mapSet s.groupMap name group }

/-- Source `GetGroup`: the single-valued read gives nil for a missing name. -/
def GetGroup (name : String) (s : State) : RouterGroupPtr :=
  (mapLookup s.groupMap name).getD none

/-- Source `Middleware`. -/
def Middleware (callback : AppFunc) (s : State) : State :=
  { s with middlewaresCallback := s.middlewaresCallback ++ [callback] }

/-- Source `Route`. -/
def Route (callback : AppFunc) (s : State) : State :=
  { s with routersCallback := s.routersCallback ++ [callback] }

/-- Source `Group`. -/
def Group (callback : AppFunc) (s : State) : State :=
  { s with groupsCallback := s.groupsCallback ++ [callback] }

/-- Source `GroupByName`: the closure goes to the route queue. -/
def GroupByName (groupName : String) (callback : GroupFunc) (s : State) : State :=
  { s with routersCallback := s.routersCallback ++ [AppFunc.byName groupName callback] }

/-- The `AddGroup` calls made by the body of a callback. -/
def runAdds (adds : List (String × RouterGroupPtr)) (s : State) : State :=
  adds.foldl (fun st p => AddGroup p.1 p.2 st) s

/-- The body of a queue entry. For the closure of `GroupByName`: the
two-valued lookup, then `callback(g)` or the log line. -/
def body (f : AppFunc) (s : State) : State :=
  match f with
  | AppFunc.user _ adds => runAdds adds s
  | AppFunc.byName groupName callback =>
    match mapLookup s.groupMap groupName with
    | some g =>
      runAdds callback.adds
        { s with log := s.log ++ [Event.callGroup groupName callback g] }
    | none => { s with log := s.log ++ [Event.warn groupName] }

/-- The statement `callback(app)` of Init. -/
def invoke (f : AppFunc) (s : State) : State :=
  body f { s with log := s.log ++ [Event.call f] }

/-- One `for _, callback := range queue` loop of Init. -/
def replay (queue : List AppFunc) (s : State) : State :=
  queue.foldl (fun st callback => invoke callback st) s

/-- Source `Init`: middleware, then groups, then routes. -/
def Init (s : State) : State :=
  let s1 := replay s.middlewaresCallback s
  let s2 := replay s1.groupsCallback s1
  replay s2.routersCallback s2

/-- A call of the package before Init. -/
inductive Call where
  | addGroup (name : String) (group : RouterGroupPtr)
  | middleware (callback : AppFunc)
  | route (callback : AppFunc)
  | group (callback : AppFunc)
  | groupByName (groupName : String) (callback : GroupFunc)
deriving DecidableEq, Repr

/-- Run one call. -/
def Call.run (c : Call) (s : State) : State :=
  match c with
  | Call.addGroup name g => AddGroup name g s
  | Call.middleware f => Middleware f s
  | Call.route f => Route f s
  | Call.group f => Group f s
  | Call.groupByName n f => GroupByName n f s

/-- Run a sequence of calls, first to last. -/
def runCalls (cs : List Call) (s : State) : State :=
  cs.foldl (fun st c => c.run st) s

/-- The queue entries Init called, in order. -/
def calls (log : List Event) : List AppFunc :=
  log.filterMap (fun e => match e with
    | Event.call f => some f
    | _ => none)

/-- The middleware registered by a sequence of calls, in order. -/
def middlewareOf (cs : List Call) : List AppFunc :=
  cs.filterMap (fun c => match c with
    | Call.middleware f => some f
    | _ => none)

/-- The group callbacks registered by a sequence of calls, in order. -/
def groupOf (cs : List Call) : List AppFunc :=
  cs.filterMap (fun c => match c with
    | Call.group f => some f
    | _ => none)

/-- The route-queue entries registered by a sequence of calls, in order:
`Route` and `GroupByName` together. -/
def routeOf (cs : List Call) : List AppFunc :=
  cs.filterMap (fun c => match c with
    | Call.route f => some f
    | Call.groupByName n f => some (AppFunc.byName n f)
    | _ => none)

/-- Every entry a sequence of calls registers, in registration order. -/
def registeredOf (cs : List Call) : List AppFunc :=
  cs.filterMap (fun c => match c with
    | Call.middleware f => some f
    | Call.group f => some f
    | Call.route f => some f
    | Call.groupByName n f => some (AppFunc.byName n f)
    | Call.addGroup _ _ => none)

/-- How many entries of a queue are closures of `GroupByName` for the group
name `n`. -/
def byNameCount (n : String) (queue : List AppFunc) : Nat :=
  queue.countP (fun f => match f with
    | AppFunc.byName m _ => decide (m = n)
    | AppFunc.user _ _ => false)

/-- What one `callback(app)` adds to the log. -/
def eventsOf (f : AppFunc) (s : State) : List Event :=
  match f with
  | AppFunc.user _ _ => [Event.call f]
  | AppFunc.byName m cb =>
    match mapLookup s.groupMap m with
    | some g => [Event.call f, Event.callGroup m cb g]
    | none => [Event.call f, Event.warn m]

/-- The replay in the words of the specification, to compare `Init` with: the
entries are called one after another, in list order, starting from the registry
`reg`. A caller's function is called and makes its `AddGroup` calls. An entry
of `GroupByName` looks its group up at that moment and calls its callback with
the group, or logs the missing group and skips the callback. The result is the
registry at the end and what happened, in order. -/
def specReplay (entries : List AppFunc) (reg : List (String × RouterGroupPtr)) :
    List (String × RouterGroupPtr) × List Event :=
  match entries with
  | [] => (reg, [])
  | AppFunc.user label adds :: rest =>
    let out := specReplay rest (adds.foldl (fun m p => mapSet m p.1 p.2) reg)
    (out.1, Event.call (AppFunc.user label adds) :: out.2)
  | AppFunc.byName n cb :: rest =>
    match mapLookup reg n with
    | some g =>
      let out := specReplay rest (cb.adds.foldl (fun m p => mapSet m p.1 p.2) reg)
      (out.1, Event.call (AppFunc.byName n cb) :: Event.callGroup n cb g :: out.2)
    | none =>
      let out := specReplay rest reg
      (out.1, Event.call (AppFunc.byName n cb) :: Event.warn n :: out.2)

/-- The registry after the `AddGroup` calls of a sequence of calls. -/
def registryOf (cs : List Call) : List (String × RouterGroupPtr) :=
  cs.foldl (fun m c => match c with
    | Call.addGroup name g => mapSet m name g
    | _ => m) []

/-- Route A, Middleware B, Route C, Middleware D, where B adds the group "api"
and C is `GroupByName("api", f3)`. -/
def abcdCalls : List Call :=
  [Call.route (AppFunc.user 1 []), Call.middleware (AppFunc.user 2 [("api", some 0)]),
   Call.groupByName "api" { label := 3, adds := [] }, Call.middleware (AppFunc.user 4 [])]

/-- A registration in which the group "api" is never added: a callback for
the group "api", a route, and a group callback that adds the group "web". -/
def apiCalls : List Call :=
  [Call.groupByName "api" { label := 7, adds := [] }, Call.route (AppFunc.user 1 []),
   Call.group (AppFunc.user 2 [("web", some 0)])]

end Boot

namespace Adapter

set_option linter.dupNamespace false

/-! ## sessions/sessions.go -/

/-- A key handed to the `Values` map, an `interface{}` in Go: a string, an
integer, a floating-point NaN (which `==` finds equal to nothing, itself
included), or a value of a type that cannot be hashed, here a `[]int`. -/
inductive Key where
  | str (s : String)
  | int (n : Int)
  | nan
  | slice (elems : List Int)
deriving DecidableEq, Repr

/-- Whether the dynamic type of the key can be hashed. A map read, write or
`delete` with a key that cannot panics. -/
def Key.hashable (k : Key) : Bool :=
  match k with
  | Key.slice _ => false
  | _ => true

/-- Go's `==` on two keys, as the map uses it: NaN equals nothing. -/
def Key.goEq (a b : Key) : Bool :=
  match a with
  | Key.nan => false
  | _ => decide (a = b)

/-- An `interface{}` value: nil, a scalar, or a `[]interface{}` slice (the one
dynamic type the session library tests for). -/
inductive Value where
  | nil
  | str (s : String)
  | int (n : Int)
  | slice (vs : List Value)
deriving Repr

/-- The session library's `Options` struct. -/
structure GorillaOptions where
  Path : String
  Domain : String
  MaxAge : Int
  Secure : Bool
  HttpOnly : Bool
  SameSite : Int
deriving DecidableEq, Repr

/-- Modelled from the spec: the `Options` struct of this package, declared in
a file that is not part of the sources read here ("recognized fields path,
domain, max-age, secure, http-only, same-site-policy"). -/
structure Options where
  Path : String := ""
  Domain : String := ""
  MaxAge : Int := 0
  Secure : Bool := false
  HttpOnly : Bool := false
  SameSite : Int := 0
deriving DecidableEq, Repr

/-- Modelled from the spec: `Options.ToGorillaOptions`, declared next to
`Options` and likewise missing ("translated to the store's native option
structure"): each field is carried over. -/
def Options.ToGorillaOptions (o : Options) : GorillaOptions :=
  { Path := o.Path, Domain := o.Domain, MaxAge := o.MaxAge, Secure := o.Secure,
    HttpOnly := o.HttpOnly, SameSite := o.SameSite }

/-- The session library's `Session` struct, as far as the adapter reads or
writes it. -/
structure GSession where
  ID : String
  Values : List (Key × Value)
  Options : GorillaOptions
  IsNew : Bool
deriving Repr

/-- A Go `error` value that is not nil. -/
abbrev Err := String

/-- An `*http.Request`. -/
abbrev Request := Nat

/-- An `http.ResponseWriter`. -/
abbrev Writer := Nat

/-- The `Store` interface, over a store with internal state `σ`.
`Get` returns the pair `(session, err)`, either of which may be nil.
`Save` receives the session by pointer, so it returns the session as it leaves
it, and the error or nil. -/
structure Store (σ : Type) where
  Get : σ → Request → String → σ × Option GSession × Option Err
  Save : σ → Request → Writer → GSession → σ × GSession × Option Err

/-- Source `session` struct. -/
structure session (σ : Type) where
  name : String
  request : Request
  store : Store σ
  session : Option GSession
  written : Bool
  writer : Writer

/-- A session value together with what lies outside it: the state of the
store, and the record of the calls of the store's `Save` (the session as it
was passed in, oldest first). -/
structure Run (σ : Type) where
  s : session σ
  st : σ
  saves : List GSession

/-- Why a call did not return. -/
inductive Panic where
  /-- The `panic` of line 198: the store gave an error and no session. -/
  | storeGet (err : Err)
  /-- A nil `*sessions.Session` was dereferenced. -/
  | nilSession
  /-- The session library's `v.([]interface{})` on a value that is no slice. -/
  | notASlice
  /-- The runtime error of a map access with a key that cannot be hashed. -/
  | unhashableKey
deriving DecidableEq, Repr

/-- The outcome of a method: a panic, or the result and the state after. -/
abbrev Res (σ α : Type) := Except Panic (α × Run σ)

/-- Source `Written`. -/
def Written {σ : Type} (r : Run σ) : Bool := r.s.written

/-- Lines 193 and 207 of `Session` when `s.session` is set: nothing is done and
the pointer is returned. -/
def SessionSet {σ : Type} (r : Run σ) : Res σ GSession :=
  match r.s.session with
  | some g => Except.ok (g, r)
  | none => Except.error Panic.nilSession

/-- The body of `Save` (lines 171-180), with the callee `s.Session()` as a
parameter. The session library's `Session.Save(r, w)` hands itself to the
store's `Save`. -/
def SaveWith {σ : Type} (Session : Run σ → Res σ GSession) (r : Run σ) :
    Res σ (Option Err) :=
  let cond : Res σ Bool :=
    if Written r then Except.ok (true, r)
    else match Session r with
      | Except.error p => Except.error p
      | Except.ok (g, r1) => Except.ok (g.IsNew, r1)
  match cond with
  | Except.error p => Except.error p
  | Except.ok (false, r1) => Except.ok (none, r1)
  | Except.ok (true, r1) =>
    match Session r1 with
    | Except.error p => Except.error p
    | Except.ok (g, r2) =>
      match r2.s.store.Save r2.st r2.s.request r2.s.writer g with
      | (st, g1, e) =>
        let r3 : Run σ :=
          { s := { r2.s with session := some g1 }, st := st, saves := r2.saves ++ [g] }
        match e with
        | none => Except.ok (none, { r3 with s := { r3.s with written := false } })
        | some err => Except.ok (some err, r3)

/-- Source `Session` (lines 192-208). The `s.Save()` of line 204 runs with
`s.session` just assigned, so its own calls of `s.Session()` take lines 193 and
207 only (`SessionSet`); `Session_calls_Save` below shows it is `Save`. -/
def Session {σ : Type} (r : Run σ) : Res σ GSession :=
  match r.s.session with
  | some g => Except.ok (g, r)
  | none =>
    match r.s.store.Get r.st r.s.request r.s.name with
    | (st, sess, err) =>
      let r1 : Run σ := { r with s := { r.s with session := sess }, st := st }
      match err, sess with
      | some e, none => Except.error (Panic.storeGet e)
      | some _, some g => Except.ok (g, r1)
      | none, none => Except.error Panic.nilSession
      | none, some g =>
        if g.IsNew then
          match SaveWith SessionSet r1 with
          | Except.error p => Except.error p
          | Except.ok (_, r2) => SessionSet r2
        else Except.ok (g, r1)

/-- Source `Save`. -/
def Save {σ : Type} (r : Run σ) : Res σ (Option Err) := SaveWith Session r

/-- Map read `v, ok := m[k]` on the `Values` map, for a key that can be hashed:
the value of the entry whose key is `==` to `k`. -/
def valuesLookup (m : List (Key × Value)) (k : Key) : Option Value :=
  match m with
  | [] => none
  | (k0, v) :: rest => if k0.goEq k then some v else valuesLookup rest k

/-- Builtin `delete(m, k)` on the `Values` map, for a key that can be hashed:
the entry whose key is `==` to `k` goes. -/
def valuesDelete (m : List (Key × Value)) (k : Key) : List (Key × Value) :=
  m.filter (fun p => !p.1.goEq k)

/-- Assignment `m[k] = v` on the `Values` map, for a key that can be hashed:
the entry whose key is `==` to `k` is replaced, or an entry is added. -/
def valuesSet (m : List (Key × Value)) (k : Key) (v : Value) : List (Key × Value) :=
  valuesDelete m k ++ [(k, v)]

/-- Source `ID`. -/
def ID {σ : Type} (r : Run σ) : Res σ String :=
  match Session r with
  | Except.error p => Except.error p
  | Except.ok (g, r1) => Except.ok (g.ID, r1)

/-- Source `Get`: the single-valued map read gives nil for a missing key. -/
def Get {σ : Type} (key : Key) (r : Run σ) : Res σ Value :=
  match Session r with
  | Except.error p => Except.error p
  | Except.ok (g, r1) =>
    if key.hashable then Except.ok ((valuesLookup g.Values key).getD Value.nil, r1)
    else Except.error Panic.unhashableKey

/-- Source `Set`: the map write comes before `written` is set. -/
def Set {σ : Type} (key : Key) (val : Value) (r : Run σ) : Res σ Unit :=
  match Session r with
  | Except.error p => Except.error p
  | Except.ok (g, r1) =>
    if key.hashable then
      Except.ok ((), { r1 with s := { r1.s with
        session := some { g with Values := valuesSet g.Values key val }, written := true } })
    else Except.error Panic.unhashableKey

/-- Source `Delete`. -/
def Delete {σ : Type} (key : Key) (r : Run σ) : Res σ Unit :=
  match Session r with
  | Except.error p => Except.error p
  | Except.ok (g, r1) =>
    if key.hashable then
      Except.ok ((), { r1 with s := { r1.s with
        session := some { g with Values := valuesDelete g.Values key }, written := true } })
    else Except.error Panic.unhashableKey

/-- The loop of `Clear`: `keys` are the keys of the entries the range has
still to reach, in its order. An entry removed before it is reached is not
produced; an entry is in the map while its key is among the keys of the
map. -/
def clearLoop {σ : Type} (keys : List Key) (r : Run σ) : Res σ Unit :=
  match keys with
  | [] => Except.ok ((), r)
  | key :: rest =>
    match r.s.session with
    | none => Except.error Panic.nilSession
    | some g =>
      if decide (key ∈ g.Values.map Prod.fst) then
        match Delete key r with
        | Except.error p => Except.error p
        | Except.ok (_, r1) => clearLoop rest r1
      else clearLoop rest r

/-- Source `Clear`: a range over the map whose body deletes the current key. -/
def Clear {σ : Type} (r : Run σ) : Res σ Unit :=
  match Session r with
  | Except.error p => Except.error p
  | Except.ok (g, r1) => clearLoop (g.Values.map Prod.fst) r1

/-- The key of a flash queue: the first of `vars`, or the library's default. -/
def flashKey (vars : List String) : Key :=
  match vars with
  | [] => Key.str "_flash"
  | k :: _ => Key.str k

/-- Modelled from the spec: `AddFlash` of the session library's `Session`, which
is outside this repository ("append-only one-shot message queue keyed by an
optional name"): the value is appended to the slice kept under the key. -/
def GSession.AddFlash (g : GSession) (value : Value) (vars : List String) :
    Except Panic GSession :=
  match valuesLookup g.Values (flashKey vars) with
  | none =>
    Except.ok { g with Values := valuesSet g.Values (flashKey vars) (Value.slice [value]) }
  | some (Value.slice fl) =>
    Except.ok { g with
      Values := valuesSet g.Values (flashKey vars) (Value.slice (fl ++ [value])) }
  | some _ => Except.error Panic.notASlice

/-- Modelled from the spec: `Flashes` of the session library's `Session`, which
is outside this repository ("`Flashes` both returns and consumes (clears) the
queue"): the slice under the key is removed from the map and returned; with no
such key the result is the nil slice. -/
def GSession.Flashes (g : GSession) (vars : List String) :
    Except Panic (List Value × GSession) :=
  match valuesLookup g.Values (flashKey vars) with
  | none => Except.ok ([], g)
  | some (Value.slice fl) =>
    Except.ok (fl, { g with Values := valuesDelete g.Values (flashKey vars) })
  | some _ => Except.error Panic.notASlice

/-- Source `AddFlash`. -/
def AddFlash {σ : Type} (value : Value) (vars : List String) (r : Run σ) : Res σ Unit :=
  match Session r with
  | Except.error p => Except.error p
  | Except.ok (g, r1) =>
    match g.AddFlash value vars with
    | Except.error p => Except.error p
    | Except.ok g1 =>
      Except.ok ((), { r1 with s := { r1.s with session := some g1, written := true } })

/-- Source `Flashes`: `written` is set before the session is looked up. -/
def Flashes {σ : Type} (vars : List String) (r : Run σ) : Res σ (List Value) :=
  match Session { r with s := { r.s with written := true } } with
  | Except.error p => Except.error p
  | Except.ok (g, r1) =>
    match g.Flashes vars with
    | Except.error p => Except.error p
    | Except.ok (fl, g1) => Except.ok (fl, { r1 with s := { r1.s with session := some g1 } })

/-- Source `Options` (the method). -/
def SetOptions {σ : Type} (options : Options) (r : Run σ) : Res σ Unit :=
  match Session r with
  | Except.error p => Except.error p
  | Except.ok (g, r1) =>
    Except.ok ((), { r1 with s := { r1.s with
      session := some { g with Options := options.ToGorillaOptions } } })

/-- Source `Destory`. -/
def Destory {σ : Type} (r : Run σ) : Res σ (Option Err) :=
  match SetOptions { MaxAge := -1 } r with
  | Except.error p => Except.error p
  | Except.ok (_, r1) => Save { r1 with s := { r1.s with written := true } }

/-- Source `IsNew`. -/
def IsNew {σ : Type} (r : Run σ) : Res σ Bool :=
  match Session r with
  | Except.error p => Except.error p
  | Except.ok (g, r1) => Except.ok (g.IsNew, r1)

/-- A call a handler makes on the session it finds in the context. -/
inductive Op where
  | ID
  | Get (key : Key)
  | Set (key : Key) (val : Value)
  | Delete (key : Key)
  | Clear
  | AddFlash (value : Value) (vars : List String)
  | Flashes (vars : List String)
  | Options (options : Options)
  | Save
  | Destory
  | IsNew
deriving Repr

/-- Run one call, dropping its result. -/
def Op.run {σ : Type} (o : Op) (r : Run σ) : Except Panic (Run σ) :=
  match o with
  | Op.ID => (Adapter.ID r).map Prod.snd
  | Op.Get key => (Adapter.Get key r).map Prod.snd
  | Op.Set key val => (Adapter.Set key val r).map Prod.snd
  | Op.Delete key => (Adapter.Delete key r).map Prod.snd
  | Op.Clear => (Adapter.Clear r).map Prod.snd
  | Op.AddFlash value vars => (Adapter.AddFlash value vars r).map Prod.snd
  | Op.Flashes vars => (Adapter.Flashes vars r).map Prod.snd
  | Op.Options options => (SetOptions options r).map Prod.snd
  | Op.Save => (Adapter.Save r).map Prod.snd
  | Op.Destory => (Adapter.Destory r).map Prod.snd
  | Op.IsNew => (Adapter.IsNew r).map Prod.snd

/-- The handler chain `c.Next()`, as the calls it makes on the session, in
order; a panic ends the chain. -/
def runOps {σ : Type} (ops : List Op) (r : Run σ) : Except Panic (Run σ) :=
  match ops with
  | [] => Except.ok r
  | o :: rest =>
    match o.run r with
    | Except.error p => Except.error p
    | Except.ok r1 => runOps rest r1

/-- Calls that do not write and return: `ID`, `Get`, `IsNew`. A `Get` with a
key that cannot be hashed panics in the map read, so the chain never reaches
the final `Save`; it is not among them. -/
def Op.readOnly (o : Op) : Bool :=
  match o with
  | Op.ID => true
  | Op.Get key => key.hashable
  | Op.IsNew => true
  | _ => false

/-- The `&session{name, c.Request, store, nil, false, c.Writer}` of line 57, in
a store whose state is `st`, before any call of the store's `Save`. -/
def newRun {σ : Type} (name : String) (store : Store σ) (request : Request)
    (writer : Writer) (st : σ) : Run σ :=
  { s := { name := name, request := request, store := store, session := none,
           written := false, writer := writer },
    st := st, saves := [] }

/-- Source `Sessions`: the handler of one request. The session is made with a
nil `session` field and `written` false; after the chain comes `s.Save()`,
whose error (if any) goes to the errors of the context and is returned here.
Storing the session in the context and the deferred `context.Clear` do not
touch the session and are left out; a panic in the chain skips the `Save`. -/
def Sessions {σ : Type} (name : String) (store : Store σ) (request : Request)
    (writer : Writer) (handlers : List Op) (st : σ) : Res σ (Option Err) :=
  match runOps handlers (newRun name store request writer st) with
  | Except.error p => Except.error p
  | Except.ok r1 => Save r1

/-- The state after the assignment of line 195, when the store, now in state
`st`, returned the session `g`. -/
def found {σ : Type} (r : Run σ) (st : σ) (g : GSession) : Run σ :=
  { r with s := { r.s with session := some g }, st := st }

/-- The state after the store's `Save` was called on `g` from `r` (lines
173-176): the call is recorded, the session is as the store left it, and
`written` is cleared when the store gave no error. -/
def afterSave {σ : Type} (r : Run σ) (g : GSession) : Run σ :=
  { s := { r.s with
      session := some (r.s.store.Save r.st r.s.request r.s.writer g).2.1,
      written :=
        match (r.s.store.Save r.st r.s.request r.s.writer g).2.2 with
        | none => false
        | some _ => r.s.written },
    st := (r.s.store.Save r.st r.s.request r.s.writer g).1,
    saves := r.saves ++ [g] }

/-- How often the store's `Save` was called, when the call returned. -/
def saveCount {σ α : Type} (x : Res σ α) : Option Nat :=
  match x with
  | Except.ok (_, r) => some r.saves.length
  | Except.error _ => none

/-- A new session without values. -/
def freshSession : GSession :=
  { ID := "", Values := [], IsNew := true,
    Options := { Path := "/", Domain := "", MaxAge := 2592000, Secure := false,
                 HttpOnly := false, SameSite := 0 } }

/-- The session of the record "s1": the value "ann" under the key "user". -/
def recordSession : GSession :=
  { ID := "s1", Values := [(Key.str "user", Value.str "ann")], IsNew := false,
    Options := { Path := "/", Domain := "", MaxAge := 2592000, Secure := false,
                 HttpOnly := false, SameSite := 0 } }

/-- A store without state whose `Get` finds no record and makes a new, empty
session, and whose `Save` succeeds and leaves the session as it is. -/
def freshStore : Store Unit :=
  { Get := fun _ _ _ =>
      ((), some freshSession, none),
    Save := fun _ _ _ g => ((), g, none) }

/-- A store without state whose `Get` finds the record "s1" with the value
"ann" under "user", and whose `Save` succeeds and leaves the session as it
is. -/
def recordStore : Store Unit :=
  { Get := fun _ _ _ =>
      ((), some recordSession, none),
    Save := fun _ _ _ g => ((), g, none) }

/-- A store like `recordStore` whose `Save` fails. -/
def failingStore : Store Unit :=
  { Get := recordStore.Get,
    Save := fun _ _ _ g => ((), g, some "disk full") }

/-- A write to the session: a `Set` or a `Delete`. -/
inductive Write where
  | Set (key : Key) (val : Value)
  | Delete (key : Key)
deriving Repr

/-- The key a write is to. -/
def Write.key (w : Write) : Key :=
  match w with
  | Write.Set key _ => key
  | Write.Delete key => key

/-- The write as a call on the session. -/
def Write.toOp (w : Write) : Op :=
  match w with
  | Write.Set key val => Op.Set key val
  | Write.Delete key => Op.Delete key

/-- What a write does to a map of values. -/
def Write.apply (w : Write) (m : List (Key × Value)) : List (Key × Value) :=
  match w with
  | Write.Set key val => valuesSet m key val
  | Write.Delete key => valuesDelete m key

/-- The last write to the key `k` in a sequence of writes, if there is one. -/
def lastWrite (k : Key) (ws : List Write) : Option Write :=
  (ws.filter (fun w => decide (w.key = k))).getLast?

/-- Last write wins, in the words of the specification: after the writes `ws`
to a session that held `stored`, the key `k` has the value of the last
`Set(k, _)` if the last write to `k` was a `Set`, is absent (nil) if it was a
`Delete`, and is as stored if `k` was not written. -/
def lastWriteWins (stored : List (Key × Value)) (ws : List Write) (k : Key) : Value :=
  match lastWrite k ws with
  | some (Write.Set _ v) => v
  | some (Write.Delete _) => Value.nil
  | none => (valuesLookup stored k).getD Value.nil

/-- The session that `Destory` hands to `Save`: the options are those of
`Options{MaxAge: -1}`. -/
def expiring (g : GSession) : GSession :=
  { g with Options := Options.ToGorillaOptions { MaxAge := -1 } }

/-- The record "s1" looked up on `store` and written to since. -/
def dirtyRun (store : Store Unit) : Run Unit :=
  { s := { name := "sid", request := 0, store := store, session := some recordSession,
           written := true, writer := 0 },
    st := (), saves := [] }

/-- The state in which `s.session` points to `g` and `s.written` is `written`;
all else is as in `r`. -/
def setSession {σ : Type} (r : Run σ) (g : GSession) (written : Bool) : Run σ :=
  { r with s := { r.s with session := some g, written := written } }

/-- The session `g` with the value map `m` in place of its own. -/
def withValues (g : GSession) (m : List (Key × Value)) : GSession :=
  { g with Values := m }

end Adapter

/-! ## Facts about maps -/

theorem mapLookup_append {κ ν : Type} [DecidableEq κ] (m m' : List (κ × ν)) (k : κ) :
    mapLookup (m ++ m') k = (mapLookup m k).or (mapLookup m' k) := by
  induction m with
  | nil => simp [mapLookup]
  | cons p rest ih =>
    obtain ⟨k', v⟩ := p
    by_cases h : k' = k
    · simp [mapLookup, h]
    · simp [mapLookup, h, ih]

theorem mapLookup_mapDelete_self {κ ν : Type} [DecidableEq κ] (m : List (κ × ν)) (k : κ) :
    mapLookup (mapDelete m k) k = none := by
  induction m with
  | nil => simp [mapDelete, mapLookup]
  | cons p rest ih =>
    obtain ⟨k', v⟩ := p
    by_cases h : k' = k
    · simpa [mapDelete, h] using ih
    · simpa [mapDelete, List.filter_cons, h, mapLookup] using ih

theorem mapLookup_mapDelete_ne {κ ν : Type} [DecidableEq κ] (m : List (κ × ν)) (k k' : κ)
    (h : k ≠ k') : mapLookup (mapDelete m k) k' = mapLookup m k' := by
  induction m with
  | nil => simp [mapDelete, mapLookup]
  | cons p rest ih =>
    obtain ⟨k0, v⟩ := p
    by_cases h0 : k0 = k
    · subst h0
      simpa [mapDelete, mapLookup, h] using ih
    · simp only [mapDelete, List.filter_cons, h0, ne_eq, not_false_eq_true, decide_True,
        if_true, mapLookup]
      by_cases h1 : k0 = k'
      · simp [h1]
      · simpa [h1, mapDelete] using ih

theorem mapLookup_mapSet_self {κ ν : Type} [DecidableEq κ] (m : List (κ × ν)) (k : κ) (v : ν) :
    mapLookup (mapSet m k v) k = some v := by
  simp [mapSet, mapLookup_append, mapLookup_mapDelete_self, mapLookup]

theorem mapLookup_mapSet_ne {κ ν : Type} [DecidableEq κ] (m : List (κ × ν)) (k k' : κ) (v : ν)
    (h : k ≠ k') : mapLookup (mapSet m k v) k' = mapLookup m k' := by
  simp [mapSet, mapLookup_append, mapLookup_mapDelete_ne m k k' h, mapLookup, h]

namespace Boot

/-! ## The boot ledger -/

theorem runAdds_log (adds : List (String × RouterGroupPtr)) (s : State) :
    (runAdds adds s).log = s.log := by
  induction adds generalizing s with
  | nil => rfl
  | cons p rest ih => simp [runAdds, List.foldl_cons, AddGroup] at ih ⊢; rw [ih]

theorem runAdds_queues (adds : List (String × RouterGroupPtr)) (s : State) :
    (runAdds adds s).middlewaresCallback = s.middlewaresCallback ∧
    (runAdds adds s).groupsCallback = s.groupsCallback ∧
    (runAdds adds s).routersCallback = s.routersCallback := by
  induction adds generalizing s with
  | nil => exact ⟨rfl, rfl, rfl⟩
  | cons p rest ih =>
    have h := ih (AddGroup p.1 p.2 s)
    simpa [runAdds, List.foldl_cons, AddGroup] using h

theorem AddGroup_lookup_mono (name : String) (g : RouterGroupPtr) (s : State) (n : String)
    (h : (mapLookup s.groupMap n).isSome) :
    (mapLookup (AddGroup name g s).groupMap n).isSome := by
  by_cases hn : name = n
  · subst hn; simp [AddGroup, mapLookup_mapSet_self]
  · simpa [AddGroup, mapLookup_mapSet_ne _ _ _ _ hn] using h

theorem runAdds_lookup_mono (adds : List (String × RouterGroupPtr)) (s : State) (n : String)
    (h : (mapLookup s.groupMap n).isSome) :
    (mapLookup (runAdds adds s).groupMap n).isSome := by
  induction adds generalizing s with
  | nil => exact h
  | cons p rest ih =>
    exact ih (AddGroup p.1 p.2 s) (AddGroup_lookup_mono p.1 p.2 s n h)

theorem invoke_queues (f : AppFunc) (s : State) :
    (invoke f s).middlewaresCallback = s.middlewaresCallback ∧
    (invoke f s).groupsCallback = s.groupsCallback ∧
    (invoke f s).routersCallback = s.routersCallback := by
  cases f with
  | user l adds => simpa [invoke, body] using runAdds_queues adds _
  | byName n cb =>
    simp only [invoke, body]
    split
    · simpa using runAdds_queues cb.adds _
    · exact ⟨rfl, rfl, rfl⟩

theorem invoke_lookup_mono (f : AppFunc) (s : State) (n : String)
    (h : (mapLookup s.groupMap n).isSome) :
    (mapLookup (invoke f s).groupMap n).isSome := by
  cases f with
  | user l adds => exact runAdds_lookup_mono adds _ n h
  | byName m cb =>
    simp only [invoke, body]
    split
    · exact runAdds_lookup_mono cb.adds _ n h
    · exact h

theorem invoke_calls (f : AppFunc) (s : State) :
    calls (invoke f s).log = calls s.log ++ [f] := by
  cases f with
  | user l adds => simp [invoke, body, runAdds_log, calls, List.filterMap_append]
  | byName n cb =>
    simp only [invoke, body]
    split <;> simp [runAdds_log, calls, List.filterMap_append]

theorem replay_queues (q : List AppFunc) (s : State) :
    (replay q s).middlewaresCallback = s.middlewaresCallback ∧
    (replay q s).groupsCallback = s.groupsCallback ∧
    (replay q s).routersCallback = s.routersCallback := by
  induction q generalizing s with
  | nil => exact ⟨rfl, rfl, rfl⟩
  | cons f rest ih =>
    have h := ih (invoke f s)
    have h' := invoke_queues f s
    simp only [replay, List.foldl_cons] at h ⊢
    exact ⟨h.1.trans h'.1, h.2.1.trans h'.2.1, h.2.2.trans h'.2.2⟩

theorem replay_lookup_mono (q : List AppFunc) (s : State) (n : String)
    (h : (mapLookup s.groupMap n).isSome) :
    (mapLookup (replay q s).groupMap n).isSome := by
  induction q generalizing s with
  | nil => exact h
  | cons f rest ih => exact ih (invoke f s) (invoke_lookup_mono f s n h)

theorem replay_calls (q : List AppFunc) (s : State) :
    calls (replay q s).log = calls s.log ++ q := by
  induction q generalizing s with
  | nil => simp [replay]
  | cons f rest ih =>
    have h := ih (invoke f s)
    simp only [replay, List.foldl_cons] at h ⊢
    rw [h, invoke_calls]; simp

theorem Init_calls (s : State) :
    calls (Init s).log =
      calls s.log ++ s.middlewaresCallback ++ s.groupsCallback ++ s.routersCallback := by
  simp only [Init, replay_calls, (replay_queues _ _).2.1, (replay_queues _ _).2.2]

theorem runCalls_append (cs : List Call) (c : Call) (s : State) :
    runCalls (cs ++ [c]) s = c.run (runCalls cs s) := by
  simp [runCalls, List.foldl_append]

theorem runCalls_queues (cs : List Call) (s : State) :
    (runCalls cs s).middlewaresCallback = s.middlewaresCallback ++ middlewareOf cs ∧
    (runCalls cs s).groupsCallback = s.groupsCallback ++ groupOf cs ∧
    (runCalls cs s).routersCallback = s.routersCallback ++ routeOf cs ∧
    (runCalls cs s).log = s.log := by
  induction cs generalizing s with
  | nil => simp [runCalls, middlewareOf, groupOf, routeOf]
  | cons c rest ih =>
    have h := ih (c.run s)
    simp only [runCalls, List.foldl_cons] at h ⊢
    rw [h.1, h.2.1, h.2.2.1, h.2.2.2]
    cases c <;>
      simp [Call.run, AddGroup, Middleware, Route, Group, GroupByName, middlewareOf, groupOf,
        routeOf]

theorem registeredOf_perm (cs : List Call) :
    List.Perm (middlewareOf cs ++ groupOf cs ++ routeOf cs) (registeredOf cs) := by
  induction cs with
  | nil => simp [middlewareOf, groupOf, routeOf, registeredOf]
  | cons c rest ih =>
    cases c with
    | addGroup n g => simpa [middlewareOf, groupOf, routeOf, registeredOf] using ih
    | middleware f =>
      simpa [middlewareOf, groupOf, routeOf, registeredOf] using ih
    | route f =>
      have h : List.Perm (middlewareOf rest ++ groupOf rest ++ f :: routeOf rest)
          (f :: (middlewareOf rest ++ groupOf rest ++ routeOf rest)) := List.perm_middle
      simpa [middlewareOf, groupOf, routeOf, registeredOf] using h.trans (ih.cons f)
    | group f =>
      have h : List.Perm (middlewareOf rest ++ (f :: groupOf rest ++ routeOf rest))
          (f :: (middlewareOf rest ++ (groupOf rest ++ routeOf rest))) := List.perm_middle
      have ih' : List.Perm (middlewareOf rest ++ (groupOf rest ++ routeOf rest))
          (registeredOf rest) := by simpa using ih
      simpa [middlewareOf, groupOf, routeOf, registeredOf] using h.trans (ih'.cons f)
    | groupByName n f =>
      have h : List.Perm
          (middlewareOf rest ++ groupOf rest ++ AppFunc.byName n f :: routeOf rest)
          (AppFunc.byName n f :: (middlewareOf rest ++ groupOf rest ++ routeOf rest)) :=
        List.perm_middle
      simpa [middlewareOf, groupOf, routeOf, registeredOf] using h.trans (ih.cons _)

end Boot

namespace Boot

theorem invoke_log (f : AppFunc) (s : State) :
    (invoke f s).log = s.log ++ eventsOf f s := by
  cases f with
  | user l adds => simp [invoke, body, runAdds_log, eventsOf]
  | byName n cb =>
    simp only [invoke, body, eventsOf]
    split <;> simp [runAdds_log]

theorem lookup_none_of_invoke (f : AppFunc) (s : State) (n : String)
    (h : mapLookup (invoke f s).groupMap n = none) : mapLookup s.groupMap n = none := by
  by_contra hc
  have h1 : (mapLookup s.groupMap n).isSome := by
    cases hx : mapLookup s.groupMap n with
    | none => exact absurd hx hc
    | some v => rfl
  have h2 := invoke_lookup_mono f s n h1
  rw [h] at h2
  exact absurd h2 (by simp)

theorem lookup_none_of_replay (q : List AppFunc) (s : State) (n : String)
    (h : mapLookup (replay q s).groupMap n = none) : mapLookup s.groupMap n = none := by
  by_contra hc
  have h1 : (mapLookup s.groupMap n).isSome := by
    cases hx : mapLookup s.groupMap n with
    | none => exact absurd hx hc
    | some v => rfl
  have h2 := replay_lookup_mono q s n h1
  rw [h] at h2
  exact absurd h2 (by simp)

theorem invoke_missing (f : AppFunc) (s : State) (n : String)
    (h : mapLookup s.groupMap n = none) :
    (∀ cb g, Event.callGroup n cb g ∈ (invoke f s).log → Event.callGroup n cb g ∈ s.log) ∧
    List.count (Event.warn n) (invoke f s).log =
      List.count (Event.warn n) s.log + byNameCount n [f] := by
  rw [invoke_log]
  cases f with
  | user l adds => simp [eventsOf, byNameCount]
  | byName m cb =>
    by_cases hm : m = n
    · subst hm
      simp [eventsOf, h, byNameCount]
    · have hm' : ¬ n = m := fun e => hm e.symm
      simp only [eventsOf, byNameCount]
      split <;> simp [hm, hm']

theorem replay_missing (q : List AppFunc) (s : State) (n : String)
    (h : mapLookup (replay q s).groupMap n = none) :
    (∀ cb g, Event.callGroup n cb g ∈ (replay q s).log → Event.callGroup n cb g ∈ s.log) ∧
    List.count (Event.warn n) (replay q s).log =
      List.count (Event.warn n) s.log + byNameCount n q := by
  induction q generalizing s with
  | nil => simp [replay, byNameCount]
  | cons f rest ih =>
    have hr : replay (f :: rest) s = replay rest (invoke f s) := rfl
    rw [hr] at h ⊢
    have h1 := lookup_none_of_replay rest (invoke f s) n h
    have h0 := lookup_none_of_invoke f s n h1
    have a := ih (invoke f s) h
    have b := invoke_missing f s n h0
    refine ⟨fun cb g hm => b.1 cb g (a.1 cb g hm), ?_⟩
    rw [a.2, b.2]
    simp only [byNameCount, List.countP_cons, List.countP_nil]
    omega

theorem Init_missing (s : State) (n : String)
    (h : mapLookup (Init s).groupMap n = none) :
    (∀ cb g, Event.callGroup n cb g ∈ (Init s).log → Event.callGroup n cb g ∈ s.log) ∧
    List.count (Event.warn n) (Init s).log =
      List.count (Event.warn n) s.log +
        byNameCount n (s.middlewaresCallback ++ s.groupsCallback ++ s.routersCallback) := by
  have e : Init s = replay s.routersCallback
      (replay s.groupsCallback (replay s.middlewaresCallback s)) := by
    simp only [Init, (replay_queues _ _).2.1, (replay_queues _ _).2.2]
  rw [e] at h ⊢
  have h2 := lookup_none_of_replay _ _ n h
  have h1 := lookup_none_of_replay _ _ n h2
  have a := replay_missing _ _ n h
  have b := replay_missing _ _ n h2
  have c := replay_missing _ _ n h1
  refine ⟨fun cb g hm => c.1 cb g (b.1 cb g (a.1 cb g hm)), ?_⟩
  rw [a.2, b.2, c.2]
  simp only [byNameCount, List.countP_append]
  omega

theorem byNameCount_perm (n : String) (q q' : List AppFunc) (h : List.Perm q q') :
    byNameCount n q = byNameCount n q' := by
  unfold byNameCount
  exact h.countP_eq _

theorem runAdds_groupMap (adds : List (String × RouterGroupPtr)) (s : State) :
    (runAdds adds s).groupMap = adds.foldl (fun m p => mapSet m p.1 p.2) s.groupMap := by
  induction adds generalizing s with
  | nil => rfl
  | cons p rest ih =>
    have h := ih (AddGroup p.1 p.2 s)
    simp only [runAdds, List.foldl_cons] at h ⊢
    rw [h]
    rfl

theorem replay_cons (f : AppFunc) (rest : List AppFunc) (s : State) :
    replay (f :: rest) s = replay rest (invoke f s) := rfl

theorem replay_append (q q' : List AppFunc) (s : State) :
    replay (q ++ q') s = replay q' (replay q s) := by
  simp [replay, List.foldl_append]

/-- One loop of the replay does what the specification's replay does. -/
theorem replay_eq_specReplay (q : List AppFunc) (s : State) :
    (replay q s).groupMap = (specReplay q s.groupMap).1 ∧
    (replay q s).log = s.log ++ (specReplay q s.groupMap).2 := by
  induction q generalizing s with
  | nil => simp [replay, specReplay]
  | cons f rest ih =>
    rw [replay_cons]
    have h := ih (invoke f s)
    cases f with
    | user label adds =>
      have hg : (invoke (AppFunc.user label adds) s).groupMap =
          adds.foldl (fun m p => mapSet m p.1 p.2) s.groupMap := by
        simp [invoke, body, runAdds_groupMap]
      have hl : (invoke (AppFunc.user label adds) s).log =
          s.log ++ [Event.call (AppFunc.user label adds)] := by
        simp [invoke, body, runAdds_log]
      rw [hg, hl] at h
      simp only [specReplay]
      exact ⟨h.1, by rw [h.2]; simp⟩
    | byName n cb =>
      cases hx : mapLookup s.groupMap n with
      | some g =>
        have hg : (invoke (AppFunc.byName n cb) s).groupMap =
            cb.adds.foldl (fun m p => mapSet m p.1 p.2) s.groupMap := by
          simp [invoke, body, hx, runAdds_groupMap]
        have hl : (invoke (AppFunc.byName n cb) s).log =
            s.log ++ [Event.call (AppFunc.byName n cb), Event.callGroup n cb g] := by
          simp [invoke, body, hx, runAdds_log]
        rw [hg, hl] at h
        simp only [specReplay, hx]
        exact ⟨h.1, by rw [h.2]; simp⟩
      | none =>
        have hg : (invoke (AppFunc.byName n cb) s).groupMap = s.groupMap := by
          simp [invoke, body, hx]
        have hl : (invoke (AppFunc.byName n cb) s).log =
            s.log ++ [Event.call (AppFunc.byName n cb), Event.warn n] := by
          simp [invoke, body, hx]
        rw [hg, hl] at h
        simp only [specReplay, hx]
        exact ⟨h.1, by rw [h.2]; simp⟩

theorem Init_eq_replay (s : State) :
    Init s = replay (s.middlewaresCallback ++ s.groupsCallback ++ s.routersCallback) s := by
  simp only [Init, replay_append, (replay_queues _ _).2.1, (replay_queues _ _).2.2]

theorem runCalls_groupMap (cs : List Call) (s : State) :
    (runCalls cs s).groupMap = cs.foldl (fun m c => match c with
      | Call.addGroup name g => mapSet m name g
      | _ => m) s.groupMap := by
  induction cs generalizing s with
  | nil => rfl
  | cons c rest ih =>
    have h := ih (c.run s)
    simp only [runCalls, List.foldl_cons] at h ⊢
    rw [h]
    cases c <;> rfl

/-- C1. Whatever the order of the `Middleware`, `Group`, `Route`, `GroupByName`
(and `AddGroup`) calls made before it, `Init` calls the middleware entries,
then the group entries, then the route-queue entries (`Route` and `GroupByName`
together), each queue in registration order; the entries called are the
entries registered, each as often as it was registered; and the callbacks are
run, not only reached: the registry and the record of what happened are those
of running the entries one after another in that order, with every `AddGroup`
a callback makes and every lookup of a `GroupByName` entry taking effect at
its place. For Route A, Middleware B, Route C, Middleware D the order is
B, D, A, C; when B adds the group that C is registered for, C's callback is
called with that group, after A. -/
theorem Init_replays_middleware_groups_routes (cs : List Call) :
    calls (Init (runCalls cs State.init)).log =
        middlewareOf cs ++ groupOf cs ++ routeOf cs ∧
    List.Perm (calls (Init (runCalls cs State.init)).log) (registeredOf cs) ∧
    ((Init (runCalls cs State.init)).groupMap, (Init (runCalls cs State.init)).log) =
      specReplay (middlewareOf cs ++ groupOf cs ++ routeOf cs) (registryOf cs) ∧
    calls (Init (runCalls
        [Call.route (AppFunc.user 1 []), Call.middleware (AppFunc.user 2 []),
         Call.route (AppFunc.user 3 []), Call.middleware (AppFunc.user 4 [])]
        State.init)).log =
      [AppFunc.user 2 [], AppFunc.user 4 [], AppFunc.user 1 [], AppFunc.user 3 []] ∧
    (Init (runCalls abcdCalls State.init)).log =
      [Event.call (AppFunc.user 2 [("api", some 0)]), Event.call (AppFunc.user 4 []),
       Event.call (AppFunc.user 1 []),
       Event.call (AppFunc.byName "api" { label := 3, adds := [] }),
       Event.callGroup "api" { label := 3, adds := [] } (some 0)] ∧
    (Init (runCalls abcdCalls State.init)).groupMap = [("api", some 0)] := by
  have key : ∀ ds : List Call, calls (Init (runCalls ds State.init)).log =
      middlewareOf ds ++ groupOf ds ++ routeOf ds := by
    intro ds
    have q := runCalls_queues ds State.init
    rw [Init_calls, q.1, q.2.1, q.2.2.1, q.2.2.2]
    simp [State.init, calls]
  refine ⟨key cs, ?_, ?_, ?_, by decide, by decide⟩
  · rw [key cs]; exact registeredOf_perm cs
  · have q := runCalls_queues cs State.init
    have hr := replay_eq_specReplay
      (middlewareOf cs ++ groupOf cs ++ routeOf cs) (runCalls cs State.init)
    have hi : Init (runCalls cs State.init) =
        replay (middlewareOf cs ++ groupOf cs ++ routeOf cs) (runCalls cs State.init) := by
      have hi0 := Init_eq_replay (runCalls cs State.init)
      rw [q.1, q.2.1, q.2.2.1] at hi0
      exact hi0
    have hgm : (runCalls cs State.init).groupMap = registryOf cs :=
      runCalls_groupMap cs State.init
    rw [hi, hr.1, hr.2, q.2.2.2, hgm]
    rfl
  · rw [key]; rfl

/-- C5. If the group name `n` is not in the registry after `Init` (so it was
never added, before or during the replay), then no callback registered with
`GroupByName(n, fn)` is called, each such registration gives one log line
instead, and `Init` still calls every queue entry, in the usual order. -/
theorem GroupByName_missing_group_skipped (cs : List Call) (n : String)
    (h : mapLookup (Init (runCalls cs State.init)).groupMap n = none) :
    (∀ cb g, Event.callGroup n cb g ∉ (Init (runCalls cs State.init)).log) ∧
    List.count (Event.warn n) (Init (runCalls cs State.init)).log =
      byNameCount n (registeredOf cs) ∧
    calls (Init (runCalls cs State.init)).log =
      middlewareOf cs ++ groupOf cs ++ routeOf cs := by
  have q := runCalls_queues cs State.init
  have m := Init_missing (runCalls cs State.init) n h
  refine ⟨?_, ?_, ?_⟩
  · intro cb g hm
    have := m.1 cb g hm
    rw [q.2.2.2] at this
    simp [State.init] at this
  · rw [m.2, q.1, q.2.1, q.2.2.1, q.2.2.2]
    simp only [State.init, List.count_nil, List.nil_append, Nat.zero_add]
    exact byNameCount_perm n _ _ (registeredOf_perm cs)
  · rw [Init_calls, q.1, q.2.1, q.2.2.1, q.2.2.2]
    simp [State.init, calls]

/-- Witness for C5: in `apiCalls` the group "api" is never added. -/
theorem GroupByName_missing_group_skipped_witness :
    mapLookup (Init (runCalls apiCalls State.init)).groupMap "api" = none ∧
    ((∀ cb g, Event.callGroup "api" cb g ∉ (Init (runCalls apiCalls State.init)).log) ∧
      List.count (Event.warn "api") (Init (runCalls apiCalls State.init)).log =
        byNameCount "api" (registeredOf apiCalls) ∧
      calls (Init (runCalls apiCalls State.init)).log =
        middlewareOf apiCalls ++ groupOf apiCalls ++ routeOf apiCalls) :=
  ⟨by decide, GroupByName_missing_group_skipped apiCalls "api" (by decide)⟩

end Boot

namespace Adapter

/-! ## The session adapter -/

theorem Session_of_set {σ : Type} (r : Run σ) (g : GSession) (h : r.s.session = some g) :
    Session r = Except.ok (g, r) := by
  simp [Session, h]

theorem SessionSet_of_set {σ : Type} (r : Run σ) (g : GSession) (h : r.s.session = some g) :
    SessionSet r = Except.ok (g, r) := by
  simp [SessionSet, h]

/-- The `s.Save()` of line 204, which `Session` runs through `SessionSet`, is
`Save`: with `s.session` set the two agree. -/
theorem Session_calls_Save {σ : Type} (r : Run σ) (g : GSession) (h : r.s.session = some g) :
    SaveWith SessionSet r = Save r := by
  by_cases hw : Written r = true
  · simp [Save, SaveWith, Session_of_set r g h, SessionSet_of_set r g h, hw]
  · cases hn : g.IsNew <;>
      simp [Save, SaveWith, Session_of_set r g h, SessionSet_of_set r g h, hw, hn]

/-- `Save` on a session that is looked up already. -/
theorem Save_of_set {σ : Type} (r : Run σ) (g : GSession) (h : r.s.session = some g) :
    Save r =
      if r.s.written || g.IsNew then
        Except.ok ((r.s.store.Save r.st r.s.request r.s.writer g).2.2, afterSave r g)
      else Except.ok (none, r) := by
  rcases hx : r.s.store.Save r.st r.s.request r.s.writer g with ⟨st, g1, e⟩
  by_cases hw : r.s.written = true
  · cases e <;> simp [Save, SaveWith, Written, Session_of_set r g h, hw, hx, afterSave]
  · by_cases hn : g.IsNew = true
    · cases e <;> simp [Save, SaveWith, Written, Session_of_set r g h, hw, hn, hx, afterSave]
    · simp [Save, SaveWith, Written, Session_of_set r g h, hw, hn]

end Adapter

namespace Adapter

theorem Session_resolves {σ : Type} (r r0 : Run σ) (g : GSession)
    (h : Session r = Except.ok (g, r0)) : r0.s.session = some g := by
  unfold Session at h
  cases hs : r.s.session with
  | some g0 =>
    simp only [hs, Except.ok.injEq, Prod.mk.injEq] at h
    rw [← h.2, hs, h.1]
  | none =>
    rcases hx : r.s.store.Get r.st r.s.request r.s.name with ⟨st, sess, err⟩
    simp only [hs, hx] at h
    cases err with
    | some e =>
      cases sess with
      | none => simp at h
      | some g1 =>
        simp only [Except.ok.injEq, Prod.mk.injEq] at h
        rw [← h.2, ← h.1]
    | none =>
      cases sess with
      | none => simp at h
      | some g1 =>
        simp only at h
        by_cases hn : g1.IsNew = true
        · simp only [hn, if_true] at h
          cases hsv : SaveWith SessionSet
              ({ r with s := { r.s with session := some g1 }, st := st } : Run σ) with
          | error p => simp [hsv] at h
          | ok x =>
            simp only [hsv] at h
            unfold SessionSet at h
            cases hx2 : x.2.s.session with
            | none => simp [hx2] at h
            | some g2 =>
              simp only [hx2, Except.ok.injEq, Prod.mk.injEq] at h
              rw [← h.2, hx2, h.1]
        · simp only [hn, Bool.false_eq_true, if_false, Except.ok.injEq, Prod.mk.injEq] at h
          rw [← h.2, ← h.1]

theorem Session_idem {σ : Type} (r r0 : Run σ) (g : GSession)
    (h : Session r = Except.ok (g, r0)) : Session r0 = Except.ok (g, r0) :=
  Session_of_set r0 g (Session_resolves r r0 g h)

/-- The lookup of a session whose store finds an existing record. -/
theorem Session_of_existing {σ : Type} (r : Run σ) (st : σ) (g : GSession)
    (hs : r.s.session = none)
    (hget : r.s.store.Get r.st r.s.request r.s.name = (st, some g, none))
    (hnew : g.IsNew = false) :
    Session r = Except.ok (g, found r st g) := by
  simp [Session, hs, hget, hnew, found]

/-- The lookup of a session the store has just made: the store's `Save` is
called at once. -/
theorem Session_of_new {σ : Type} (r : Run σ) (st : σ) (g : GSession)
    (hs : r.s.session = none)
    (hget : r.s.store.Get r.st r.s.request r.s.name = (st, some g, none))
    (hnew : g.IsNew = true) :
    Session r = Except.ok
      ((r.s.store.Save st r.s.request r.s.writer g).2.1, afterSave (found r st g) g) := by
  have e := Session_calls_Save (found r st g) g rfl
  have e2 := Save_of_set (found r st g) g rfl
  simp only [hnew, Bool.or_true, if_true] at e2
  simp only [found] at e e2
  simp only [Session, hs, hget, hnew, if_true, e, e2]
  simp [SessionSet, afterSave, found]

theorem readOnly_run_of_Session {σ : Type} (o : Op) (r r0 : Run σ) (g : GSession)
    (h : Session r = Except.ok (g, r0)) (ho : o.readOnly = true) :
    o.run r = Except.ok r0 := by
  cases o <;> simp [Op.readOnly] at ho <;>
    simp [Op.run, ID, Get, IsNew, h, Except.map, ho]

theorem readOnly_runOps_of_set {σ : Type} (ops : List Op) (r : Run σ) (g : GSession)
    (h : r.s.session = some g) (ho : ∀ o ∈ ops, o.readOnly = true) :
    runOps ops r = Except.ok r := by
  induction ops with
  | nil => rfl
  | cons o rest ih =>
    have h1 := readOnly_run_of_Session o r r g (Session_of_set r g h)
      (ho o (List.mem_cons_self _ _))
    simp only [runOps, h1]
    exact ih (fun o' ho' => ho o' (List.mem_cons_of_mem _ ho'))

theorem readOnly_runOps {σ : Type} (ops : List Op) (r r0 : Run σ) (g : GSession)
    (h : Session r = Except.ok (g, r0)) (ho : ∀ o ∈ ops, o.readOnly = true) :
    runOps ops r = Except.ok r ∨ runOps ops r = Except.ok r0 := by
  cases ops with
  | nil => exact Or.inl rfl
  | cons o rest =>
    right
    have h1 := readOnly_run_of_Session o r r0 g h (ho o (List.mem_cons_self _ _))
    simp only [runOps, h1]
    exact readOnly_runOps_of_set rest r0 g (Session_resolves r r0 g h)
      (fun o' ho' => ho o' (List.mem_cons_of_mem _ ho'))

/-- `Save` on a clean session that is not looked up yet looks it up and goes
on as `Save` does from there. -/
theorem Save_of_Session {σ : Type} (r r0 : Run σ) (g : GSession)
    (h : Session r = Except.ok (g, r0)) (hw : r.s.written = false)
    (hw0 : r0.s.written = false) : Save r = Save r0 := by
  have h0 := Session_idem r r0 g h
  simp [Save, SaveWith, Written, hw, hw0, h, h0]

end Adapter

namespace Adapter

/-- C2, as stated, fails: with a store whose `Get` makes a new session and whose
`Save` succeeds and leaves `IsNew` as it is, a request whose handlers never
touch the session, and one whose handler only reads a value, each call the
store's `Save` twice, not once. -/
theorem Sessions_new_session_not_saved_once :
    (freshStore.Get () 0 "sid").2.2 = none ∧
    (freshStore.Get () 0 "sid").2.1.map GSession.IsNew = some true ∧
    (∀ (st : Unit) (rq : Request) (w : Writer) (g : GSession),
      (freshStore.Save st rq w g).2.2 = none ∧
      (freshStore.Save st rq w g).2.1.IsNew = g.IsNew) ∧
    saveCount (Sessions "sid" freshStore 0 0 [] ()) = some 2 ∧
    saveCount (Sessions "sid" freshStore 0 0 [Op.Get (Key.str "user")] ()) = some 2 ∧
    saveCount (Sessions "sid" freshStore 0 0 [] ()) ≠ some 1 := by
  refine ⟨rfl, rfl, fun _ _ _ _ => ⟨rfl, rfl⟩, rfl, rfl, ?_⟩
  have h : saveCount (Sessions "sid" freshStore 0 0 [] ()) = some 2 := rfl
  rw [h]; decide

/-- A request on a new session whose handlers only read: the store's `Save`
runs at the lookup and again in the final `Save`. -/
theorem request_on_new_session {σ : Type} (r : Run σ) (handlers : List Op) (st1 : σ)
    (g : GSession) (hs : r.s.session = none) (hw : r.s.written = false)
    (hget : r.s.store.Get r.st r.s.request r.s.name = (st1, some g, none))
    (hnew : g.IsNew = true)
    (hsave : ∀ (st0 : σ) (rq : Request) (w : Writer) (g0 : GSession),
      (r.s.store.Save st0 rq w g0).2.2 = none ∧
      (r.s.store.Save st0 rq w g0).2.1.IsNew = g0.IsNew)
    (hro : ∀ o ∈ handlers, o.readOnly = true) :
    (match runOps handlers r with
      | Except.error p => Except.error p
      | Except.ok r1 => Save r1) =
      Except.ok (none, afterSave (afterSave (found r st1 g) g)
        (r.s.store.Save st1 r.s.request r.s.writer g).2.1) := by
  have hS := Session_of_new r st1 g hs hget hnew
  have hset := Session_resolves _ _ _ hS
  have hw2 : (afterSave (found r st1 g) g).s.written = false := by
    have e : ((found r st1 g).s.store.Save (found r st1 g).st (found r st1 g).s.request
        (found r st1 g).s.writer g).2.2 = none := (hsave _ _ _ _).1
    simp only [afterSave, e]
  have hfin := Save_of_set _ _ hset
  have hnew1 : (r.s.store.Save st1 r.s.request r.s.writer g).2.1.IsNew = true := by
    rw [(hsave _ _ _ _).2, hnew]
  have e2 : ((afterSave (found r st1 g) g).s.store.Save (afterSave (found r st1 g) g).st
      (afterSave (found r st1 g) g).s.request (afterSave (found r st1 g) g).s.writer
      (r.s.store.Save st1 r.s.request r.s.writer g).2.1).2.2 = none := (hsave _ _ _ _).1
  rw [hnew1, e2] at hfin
  simp only [Bool.or_true, if_true] at hfin
  have hboth := Save_of_Session _ _ _ hS hw hw2
  rcases readOnly_runOps handlers _ _ _ hS hro with hc | hc
  · rw [hc]
    simp only [hboth, hfin]
  · rw [hc]
    simp only [hfin]

/-- C2, amended. When the store's `Get` returns a new session without error,
every `Save` of the store succeeds and leaves `IsNew` as it is, and the
handlers call only `ID`, `Get` and `IsNew`, the store's `Save` is called
exactly twice over the request: once when the session is looked up, on the
session as `Get` returned it, and once after the handler chain, on the session
as the first `Save` left it; the final `Save` returns nil. -/
theorem Sessions_new_session_saved_twice {σ : Type} (name : String) (store : Store σ)
    (request : Request) (writer : Writer) (handlers : List Op) (st st1 : σ) (g : GSession)
    (hget : store.Get st request name = (st1, some g, none))
    (hnew : g.IsNew = true)
    (hsave : ∀ (st0 : σ) (rq : Request) (w : Writer) (g0 : GSession),
      (store.Save st0 rq w g0).2.2 = none ∧ (store.Save st0 rq w g0).2.1.IsNew = g0.IsNew)
    (hro : ∀ o ∈ handlers, o.readOnly = true) :
    ∃ r, Sessions name store request writer handlers st = Except.ok (none, r) ∧
      r.saves = [g, (store.Save st1 request writer g).2.1] ∧
      saveCount (Sessions name store request writer handlers st) = some 2 := by
  have key := request_on_new_session (newRun name store request writer st) handlers st1 g
    rfl rfl hget hnew hsave hro
  have key2 : Sessions name store request writer handlers st = _ := key
  exact ⟨_, key2, rfl, by rw [key2]; rfl⟩

/-- Witness for C2 amended: the new session of `freshStore`, read by one
handler. -/
theorem Sessions_new_session_saved_twice_witness :
    freshStore.Get () 0 "sid" = ((), some freshSession, none) ∧
    ∃ r, Sessions "sid" freshStore 0 0 [Op.IsNew, Op.Get (Key.str "user")] () =
        Except.ok (none, r) ∧
      r.saves = [freshSession, (freshStore.Save () 0 0 freshSession).2.1] ∧
      saveCount (Sessions "sid" freshStore 0 0 [Op.IsNew, Op.Get (Key.str "user")] ()) =
        some 2 :=
  ⟨rfl, Sessions_new_session_saved_twice "sid" freshStore 0 0
    [Op.IsNew, Op.Get (Key.str "user")] () () _ rfl rfl
    (fun _ _ _ _ => ⟨rfl, rfl⟩) (by decide)⟩

/-- A request on an existing session whose handlers only read: the store's
`Save` is not called. -/
theorem request_on_existing_session {σ : Type} (r : Run σ) (handlers : List Op) (st1 : σ)
    (g : GSession) (hs : r.s.session = none) (hw : r.s.written = false)
    (hget : r.s.store.Get r.st r.s.request r.s.name = (st1, some g, none))
    (hnew : g.IsNew = false)
    (hro : ∀ o ∈ handlers, o.readOnly = true) :
    (match runOps handlers r with
      | Except.error p => Except.error p
      | Except.ok r1 => Save r1) = Except.ok (none, found r st1 g) := by
  have hS := Session_of_existing r st1 g hs hget hnew
  have hset := Session_resolves _ _ _ hS
  have hw2 : (found r st1 g).s.written = false := hw
  have hfin := Save_of_set _ _ hset
  rw [hnew, hw2] at hfin
  simp only [Bool.or_false, Bool.false_eq_true, if_false] at hfin
  have hboth := Save_of_Session _ _ _ hS hw hw2
  rcases readOnly_runOps handlers _ _ _ hS hro with hc | hc
  · rw [hc]
    simp only [hboth, hfin]
  · rw [hc]
    simp only [hfin]

/-- C3. When the store's `Get` returns an existing session (`IsNew` false)
without error and the handlers call only `ID`, `Get` and `IsNew`, the store's
`Save` is never called during the request and the final `Save` of the
middleware returns nil. -/
theorem Sessions_existing_session_not_saved {σ : Type} (name : String) (store : Store σ)
    (request : Request) (writer : Writer) (handlers : List Op) (st st1 : σ) (g : GSession)
    (hget : store.Get st request name = (st1, some g, none))
    (hnew : g.IsNew = false)
    (hro : ∀ o ∈ handlers, o.readOnly = true) :
    ∃ r, Sessions name store request writer handlers st = Except.ok (none, r) ∧
      r.saves = [] ∧ saveCount (Sessions name store request writer handlers st) = some 0 := by
  have key := request_on_existing_session (newRun name store request writer st) handlers st1 g
    rfl rfl hget hnew hro
  have key2 : Sessions name store request writer handlers st = _ := key
  exact ⟨_, key2, rfl, by rw [key2]; rfl⟩

/-- Witness for C3: the record of `recordStore`, read by two handlers. -/
theorem Sessions_existing_session_not_saved_witness :
    recordStore.Get () 0 "sid" = ((), some recordSession, none) ∧
    ∃ r, Sessions "sid" recordStore 0 0 [Op.Get (Key.str "user"), Op.ID] () =
        Except.ok (none, r) ∧
      r.saves = [] ∧
      saveCount (Sessions "sid" recordStore 0 0 [Op.Get (Key.str "user"), Op.ID] ()) =
        some 0 :=
  ⟨rfl, Sessions_existing_session_not_saved "sid" recordStore 0 0
    [Op.Get (Key.str "user"), Op.ID] () () _ rfl rfl (by decide)⟩

end Adapter

namespace Adapter

theorem Key.eq_of_goEq (a b : Key) (h : a.goEq b = true) : a = b := by
  cases a <;> simp [Key.goEq] at h <;> exact h

theorem Key.goEq_self (a : Key) (h : a ≠ Key.nan) : a.goEq a = true := by
  cases a <;> simp [Key.goEq] at h ⊢

theorem Key.goEq_of_ne (a b : Key) (h : a ≠ b) : a.goEq b = false := by
  cases hx : a.goEq b with
  | false => rfl
  | true => exact absurd (Key.eq_of_goEq a b hx) h

theorem valuesLookup_append (m m' : List (Key × Value)) (k : Key) :
    valuesLookup (m ++ m') k = (valuesLookup m k).or (valuesLookup m' k) := by
  induction m with
  | nil => simp [valuesLookup]
  | cons p rest ih =>
    obtain ⟨k0, v⟩ := p
    cases h : k0.goEq k
    · simp [valuesLookup, h, ih]
    · simp [valuesLookup, h]

theorem valuesLookup_valuesDelete_self (m : List (Key × Value)) (k : Key) :
    valuesLookup (valuesDelete m k) k = none := by
  induction m with
  | nil => rfl
  | cons p rest ih =>
    obtain ⟨k0, v⟩ := p
    cases h : k0.goEq k
    · simp only [valuesDelete, List.filter_cons, h, Bool.not_false, if_true, valuesLookup,
        Bool.false_eq_true, if_false]
      exact ih
    · simp only [valuesDelete, List.filter_cons, h, Bool.not_true, Bool.false_eq_true, if_false]
      exact ih

theorem valuesLookup_valuesDelete_ne (m : List (Key × Value)) (k k' : Key) (h : k ≠ k') :
    valuesLookup (valuesDelete m k) k' = valuesLookup m k' := by
  induction m with
  | nil => rfl
  | cons p rest ih =>
    obtain ⟨k0, v⟩ := p
    cases h0 : k0.goEq k
    · simp only [valuesDelete, List.filter_cons, h0, Bool.not_false, if_true, valuesLookup]
      cases h1 : k0.goEq k'
      · simp only [Bool.false_eq_true, if_false]
        exact ih
      · rfl
    · have e : k0 = k := Key.eq_of_goEq k0 k h0
      have h1 : k0.goEq k' = false := Key.goEq_of_ne k0 k' (by rw [e]; exact h)
      simp only [valuesDelete, List.filter_cons, h0, Bool.not_true, Bool.false_eq_true,
        if_false, valuesLookup, h1]
      exact ih

theorem valuesLookup_valuesSet_self (m : List (Key × Value)) (k : Key) (v : Value)
    (h : k ≠ Key.nan) : valuesLookup (valuesSet m k v) k = some v := by
  simp [valuesSet, valuesLookup_append, valuesLookup_valuesDelete_self, valuesLookup,
    Key.goEq_self k h]

theorem valuesLookup_valuesSet_ne (m : List (Key × Value)) (k k' : Key) (v : Value)
    (h : k ≠ k') : valuesLookup (valuesSet m k v) k' = valuesLookup m k' := by
  simp [valuesSet, valuesLookup_append, valuesLookup_valuesDelete_ne m k k' h, valuesLookup,
    Key.goEq_of_ne k k' h]

theorem lastWrite_cons (w : Write) (rest : List Write) (k : Key) :
    lastWrite k (w :: rest) =
      match lastWrite k rest with
      | some x => some x
      | none => if w.key = k then some w else none := by
  unfold lastWrite
  rw [List.filter_cons]
  cases hl : rest.filter (fun w => decide (w.key = k)) with
  | nil =>
    by_cases hk : w.key = k
    · simp only [hk, decide_True, if_true, List.getLast?_nil, List.getLast?_singleton]
    · simp only [hk, decide_False, if_false, List.getLast?_nil, Bool.false_eq_true]
  | cons x l =>
    by_cases hk : w.key = k
    · simp only [hk, decide_True, if_true, List.getLast?_cons_cons]
      cases hx : (x :: l).getLast? with
      | none => simp at hx
      | some y => rfl
    · simp only [hk, decide_False, if_false, Bool.false_eq_true]
      cases hx : (x :: l).getLast? with
      | none => simp at hx
      | some y => rfl

theorem lastWriteWins_cons (m : List (Key × Value)) (w : Write) (rest : List Write) (k : Key)
    (hk0 : k ≠ Key.nan) :
    lastWriteWins (w.apply m) rest k = lastWriteWins m (w :: rest) k := by
  unfold lastWriteWins
  rw [lastWrite_cons]
  cases hl : lastWrite k rest with
  | some x => cases x <;> rfl
  | none =>
    cases w with
    | Set key val =>
      by_cases hk : key = k
      · subst hk
        simp [Write.key, Write.apply, valuesLookup_valuesSet_self _ _ _ hk0]
      · simp [Write.key, Write.apply, hk, valuesLookup_valuesSet_ne _ _ _ _ hk]
    | Delete key =>
      by_cases hk : key = k
      · subst hk
        simp [Write.key, Write.apply, valuesLookup_valuesDelete_self]
      · simp [Write.key, Write.apply, hk, valuesLookup_valuesDelete_ne _ _ _ hk]

theorem Write_run_of_set {σ : Type} (w : Write) (r : Run σ) (g : GSession)
    (h : r.s.session = some g) (hw : w.key.hashable = true) :
    w.toOp.run r = Except.ok (setSession r { g with Values := w.apply g.Values } true) := by
  cases w <;> simp only [Write.key] at hw <;>
    simp [Write.toOp, Op.run, Set, Delete, Session_of_set r g h, Except.map, Write.apply,
      setSession, hw]

theorem Write_run_of_Session {σ : Type} (w : Write) (r r0 : Run σ) (g : GSession)
    (h : Session r = Except.ok (g, r0)) : w.toOp.run r = w.toOp.run r0 := by
  have h0 := Session_idem r r0 g h
  cases w <;> simp [Write.toOp, Op.run, Set, Delete, h, h0]

theorem Get_of_Session {σ : Type} (k : Key) (r r0 : Run σ) (g : GSession)
    (h : Session r = Except.ok (g, r0)) (hk : k.hashable = true) :
    Get k r = Except.ok ((valuesLookup g.Values k).getD Value.nil, r0) := by
  simp [Get, h, hk]

theorem writes_of_set {σ : Type} (ws : List Write) (r : Run σ) (g : GSession)
    (h : r.s.session = some g) (hw : ∀ w ∈ ws, w.key.hashable = true) :
    ∃ r1 g1, runOps (ws.map Write.toOp) r = Except.ok r1 ∧ r1.s.session = some g1 ∧
      ∀ k, k ≠ Key.nan →
        (valuesLookup g1.Values k).getD Value.nil = lastWriteWins g.Values ws k := by
  induction ws generalizing r g with
  | nil => exact ⟨r, g, rfl, h, fun k _ => rfl⟩
  | cons w rest ih =>
    obtain ⟨r1, g1, h1, h2, h3⟩ := ih
      (setSession r { g with Values := w.apply g.Values } true)
      { g with Values := w.apply g.Values } rfl
      (fun w' hw' => hw w' (List.mem_cons_of_mem _ hw'))
    refine ⟨r1, g1, ?_, h2, ?_⟩
    · simp only [List.map_cons, runOps,
        Write_run_of_set w r g h (hw w (List.mem_cons_self _ _))]
      exact h1
    · intro k hk
      rw [h3 k hk]
      exact lastWriteWins_cons g.Values w rest k hk

/-- Last write wins for keys that can be hashed and equal themselves: after any
sequence of `Set` and `Delete` calls with keys that can be hashed, `Get(k)`
returns the value the last write to `k` left, for every such `k` that is not
NaN. -/
theorem Get_after_writes_of_comparable_keys {σ : Type} (ws : List Write) (r r0 : Run σ)
    (g : GSession) (h : Session r = Except.ok (g, r0))
    (hw : ∀ w ∈ ws, w.key.hashable = true) :
    ∃ r1, runOps (ws.map Write.toOp) r = Except.ok r1 ∧
      ∀ k, k.hashable = true → k ≠ Key.nan →
        ∃ r2, Get k r1 = Except.ok (lastWriteWins g.Values ws k, r2) := by
  cases ws with
  | nil =>
    refine ⟨r, rfl, fun k hk _ => ⟨r0, ?_⟩⟩
    rw [Get_of_Session k r r0 g h hk]
    rfl
  | cons w rest =>
    obtain ⟨r1, g1, h1, h2, h3⟩ :=
      writes_of_set (w :: rest) r0 g (Session_resolves r r0 g h) hw
    refine ⟨r1, ?_, fun k hk hn => ⟨r1, ?_⟩⟩
    · simp only [List.map_cons, runOps] at h1 ⊢
      rw [Write_run_of_Session w r r0 g h]
      exact h1
    · rw [Get_of_Session k r1 r1 g1 (Session_of_set r1 g1 h2) hk, h3 k hn]

/-- C4, at the keys where the code departs from it. On the record of
`recordStore`: after `Set(NaN, 1)` the call `Get(NaN)` returns nil, where last
write wins asks for 1; after `Set(NaN, 1)` and `Delete(NaN)` the entry is still
in the map; and `Set([]int{1}, "v")`, `Get([]int{1})` and `Delete([]int{1})`
panic. -/
theorem Get_after_Set_misses_NaN_and_unhashable_keys :
    (∃ r1 r2, runOps [Op.Set Key.nan (Value.int 1)] (newRun "sid" recordStore 0 0 ()) =
        Except.ok r1 ∧
      Get Key.nan r1 = Except.ok (Value.nil, r2)) ∧
    lastWriteWins recordSession.Values [Write.Set Key.nan (Value.int 1)] Key.nan =
      Value.int 1 ∧
    (∃ r1 g1, runOps [Op.Set Key.nan (Value.int 1), Op.Delete Key.nan]
        (newRun "sid" recordStore 0 0 ()) = Except.ok r1 ∧
      r1.s.session = some g1 ∧
      g1.Values = [(Key.str "user", Value.str "ann"), (Key.nan, Value.int 1)]) ∧
    Set (Key.slice [1]) (Value.str "v") (newRun "sid" recordStore 0 0 ()) =
      Except.error Panic.unhashableKey ∧
    Get (Key.slice [1]) (newRun "sid" recordStore 0 0 ()) =
      Except.error Panic.unhashableKey ∧
    Delete (Key.slice [1]) (newRun "sid" recordStore 0 0 ()) =
      Except.error Panic.unhashableKey :=
  ⟨⟨_, _, rfl, rfl⟩, rfl, ⟨_, _, rfl, rfl, rfl⟩, rfl, rfl, rfl⟩

theorem SetOptions_of_set {σ : Type} (o : Options) (r : Run σ) (g : GSession)
    (h : r.s.session = some g) :
    SetOptions o r = Except.ok ((),
      setSession r { g with Options := o.ToGorillaOptions } r.s.written) := by
  simp [SetOptions, Session_of_set r g h, setSession]

/-- C6. On a session that is looked up, whatever `IsNew` and `written` are,
`Destory` calls the store's `Save` exactly once, on the session with the
options of `Options{MaxAge: -1}` (max-age -1, values untouched), returns what
that `Save` returns, and leaves `written` false when it returns nil (and true
when it returns an error). -/
theorem Destory_saves_once_with_negative_max_age {σ : Type} (r : Run σ) (g : GSession)
    (h : r.s.session = some g) :
    ∃ r1, Destory r =
        Except.ok ((r.s.store.Save r.st r.s.request r.s.writer (expiring g)).2.2, r1) ∧
      r1.saves = r.saves ++ [expiring g] ∧
      (expiring g).Options.MaxAge = -1 ∧
      (expiring g).Values = g.Values ∧
      ((r.s.store.Save r.st r.s.request r.s.writer (expiring g)).2.2 = none →
        r1.s.written = false) ∧
      (∀ err, (r.s.store.Save r.st r.s.request r.s.writer (expiring g)).2.2 = some err →
        r1.s.written = true) := by
  have hd : Destory r = Save (setSession r (expiring g) true) := by
    simp [Destory, SetOptions_of_set _ r g h, expiring, setSession]
  have hsv := Save_of_set (setSession r (expiring g) true) (expiring g) rfl
  have hc : ((setSession r (expiring g) true).s.written || (expiring g).IsNew) = true := rfl
  rw [hc] at hsv
  simp only [if_true] at hsv
  rw [hd, hsv]
  refine ⟨_, rfl, rfl, rfl, rfl, ?_, ?_⟩
  · intro he
    simp only [afterSave, setSession, he]
  · intro err he
    simp only [afterSave, setSession, he]

/-- Witness for C6: the record of `recordStore`, looked up. -/
theorem Destory_saves_once_with_negative_max_age_witness :
    (found (newRun "sid" recordStore 0 0 ()) () recordSession).s.session = some recordSession ∧
    ∃ r1, Destory (found (newRun "sid" recordStore 0 0 ()) () recordSession) =
        Except.ok ((recordStore.Save () 0 0 (expiring recordSession)).2.2, r1) ∧
      r1.saves = [] ++ [expiring recordSession] ∧
      (expiring recordSession).Options.MaxAge = -1 ∧
      (expiring recordSession).Values = recordSession.Values ∧
      ((recordStore.Save () 0 0 (expiring recordSession)).2.2 = none → r1.s.written = false) ∧
      (∀ err, (recordStore.Save () 0 0 (expiring recordSession)).2.2 = some err →
        r1.s.written = true) :=
  ⟨rfl, Destory_saves_once_with_negative_max_age
    (found (newRun "sid" recordStore 0 0 ()) () recordSession) recordSession rfl⟩

/-- C7. On a session that is looked up and is dirty or new, `Save` calls the
store's `Save` once and returns what it returns; the session is left as the
store left it; `written` becomes false when the store returns nil and keeps its
value when the store returns an error, so for a dirty session `written` is
false afterwards exactly when the store returned nil. -/
theorem Save_dirty_or_new_returns_store_result {σ : Type} (r : Run σ) (g : GSession)
    (h : r.s.session = some g) (hd : r.s.written = true ∨ g.IsNew = true) :
    ∃ r1, Save r = Except.ok ((r.s.store.Save r.st r.s.request r.s.writer g).2.2, r1) ∧
      r1.saves = r.saves ++ [g] ∧
      r1.s.session = some (r.s.store.Save r.st r.s.request r.s.writer g).2.1 ∧
      ((r.s.store.Save r.st r.s.request r.s.writer g).2.2 = none → r1.s.written = false) ∧
      (∀ err, (r.s.store.Save r.st r.s.request r.s.writer g).2.2 = some err →
        r1.s.written = r.s.written) ∧
      (r.s.written = true →
        (r1.s.written = false ↔ (r.s.store.Save r.st r.s.request r.s.writer g).2.2 = none)) := by
  have hsv := Save_of_set r g h
  have hc : (r.s.written || g.IsNew) = true := by
    rcases hd with hd | hd <;> simp [hd]
  rw [hc] at hsv
  simp only [if_true] at hsv
  refine ⟨_, hsv, rfl, rfl, ?_, ?_, ?_⟩
  · intro he
    simp only [afterSave, he]
  · intro err he
    simp only [afterSave, he]
  · intro hw
    cases he : (r.s.store.Save r.st r.s.request r.s.writer g).2.2 with
    | none => simp [afterSave, he]
    | some err => simp [afterSave, he, hw]

/-- Witness for C7: a dirty session on a store whose `Save` fails. -/
theorem Save_dirty_or_new_returns_store_result_witness :
    (dirtyRun failingStore).s.session = some recordSession ∧
    ((dirtyRun failingStore).s.written = true ∨ recordSession.IsNew = true) ∧
    ∃ r1, Save (dirtyRun failingStore) =
        Except.ok ((failingStore.Save () 0 0 recordSession).2.2, r1) ∧
      r1.saves = [] ++ [recordSession] ∧
      r1.s.session = some (failingStore.Save () 0 0 recordSession).2.1 ∧
      ((failingStore.Save () 0 0 recordSession).2.2 = none → r1.s.written = false) ∧
      (∀ err, (failingStore.Save () 0 0 recordSession).2.2 = some err →
        r1.s.written = (dirtyRun failingStore).s.written) ∧
      ((dirtyRun failingStore).s.written = true →
        (r1.s.written = false ↔ (failingStore.Save () 0 0 recordSession).2.2 = none)) :=
  ⟨rfl, Or.inl rfl,
    Save_dirty_or_new_returns_store_result (dirtyRun failingStore) recordSession rfl
      (Or.inl rfl)⟩

/-- C10. On a session that is looked up, `Options(o)` puts
`o.ToGorillaOptions()` in place of the session's options and leaves `written`
as it was, whatever it was, without calling the store. When the session is
neither new nor dirty, a `Save` after it returns nil without calling the
store's `Save`, so the options are not persisted; when the session is dirty,
it stays dirty and the `Save` after it does call the store once. -/
theorem Options_alone_is_not_saved {σ : Type} (o : Options) (r : Run σ) (g : GSession)
    (h : r.s.session = some g) :
    ∃ r1, SetOptions o r = Except.ok ((), r1) ∧
      r1.s.session = some { g with Options := o.ToGorillaOptions } ∧
      r1.s.written = r.s.written ∧
      r1.saves = r.saves ∧
      (g.IsNew = false → r.s.written = false →
        Save r1 = Except.ok (none, r1) ∧ saveCount (Save r1) = some r.saves.length) ∧
      (r.s.written = true → saveCount (Save r1) = some (r.saves.length + 1)) := by
  have hsv := Save_of_set (setSession r { g with Options := o.ToGorillaOptions } r.s.written)
      { g with Options := o.ToGorillaOptions } rfl
  refine ⟨_, SetOptions_of_set o r g h, rfl, rfl, rfl, ?_, ?_⟩
  · intro hn hw
    have hc : ((setSession r { g with Options := o.ToGorillaOptions } r.s.written).s.written ||
        ({ g with Options := o.ToGorillaOptions } : GSession).IsNew) = false := by
      show (r.s.written || g.IsNew) = false
      rw [hn, hw]
      rfl
    rw [hc] at hsv
    simp only [Bool.false_eq_true, if_false] at hsv
    refine ⟨hsv, ?_⟩
    rw [hsv]
    rfl
  · intro hw
    have hc : ((setSession r { g with Options := o.ToGorillaOptions } r.s.written).s.written ||
        ({ g with Options := o.ToGorillaOptions } : GSession).IsNew) = true := by
      show (r.s.written || g.IsNew) = true
      rw [hw]
      rfl
    rw [hc] at hsv
    simp only [if_true] at hsv
    rw [hsv]
    simp [saveCount, afterSave, setSession]

/-- Witness for C10: the record of `recordStore`, looked up, neither new nor
dirty, and `Options{MaxAge: 60}`. -/
theorem Options_alone_is_not_saved_witness :
    (found (newRun "sid" recordStore 0 0 ()) () recordSession).s.session = some recordSession ∧
    recordSession.IsNew = false ∧
    (found (newRun "sid" recordStore 0 0 ()) () recordSession).s.written = false ∧
    ∃ r1, SetOptions { MaxAge := 60 }
          (found (newRun "sid" recordStore 0 0 ()) () recordSession) = Except.ok ((), r1) ∧
      r1.s.session = some { recordSession with
        Options := Options.ToGorillaOptions { MaxAge := 60 } } ∧
      r1.s.written = (found (newRun "sid" recordStore 0 0 ()) () recordSession).s.written ∧
      r1.saves = (found (newRun "sid" recordStore 0 0 ()) () recordSession).saves ∧
      (recordSession.IsNew = false →
        (found (newRun "sid" recordStore 0 0 ()) () recordSession).s.written = false →
        Save r1 = Except.ok (none, r1) ∧
        saveCount (Save r1) =
          some (found (newRun "sid" recordStore 0 0 ()) () recordSession).saves.length) ∧
      ((found (newRun "sid" recordStore 0 0 ()) () recordSession).s.written = true →
        saveCount (Save r1) =
          some ((found (newRun "sid" recordStore 0 0 ()) () recordSession).saves.length + 1)) :=
  ⟨rfl, rfl, rfl, Options_alone_is_not_saved { MaxAge := 60 }
    (found (newRun "sid" recordStore 0 0 ()) () recordSession) recordSession rfl⟩

theorem Flashes_of_set {σ : Type} (vars : List String) (r : Run σ) (g : GSession)
    (h : r.s.session = some g) :
    Flashes vars r =
      match g.Flashes vars with
      | Except.error p => Except.error p
      | Except.ok (fl, g1) => Except.ok (fl, setSession r g1 true) := by
  have hs : Session (setSession r g true) = Except.ok (g, setSession r g true) :=
    Session_of_set _ g rfl
  have e : ({ r with s := { r.s with written := true } } : Run σ) = setSession r g true := by
    simp [setSession, ← h]
  simp only [Flashes, e, hs]
  cases g.Flashes vars with
  | error p => rfl
  | ok x => rfl

theorem AddFlash_of_Session {σ : Type} (value : Value) (vars : List String) (r r0 : Run σ)
    (g : GSession) (h : Session r = Except.ok (g, r0)) :
    AddFlash value vars r =
      match g.AddFlash value vars with
      | Except.error p => Except.error p
      | Except.ok g1 => Except.ok ((), setSession r0 g1 true) := by
  simp only [AddFlash, h]
  cases g.AddFlash value vars with
  | error p => rfl
  | ok x => rfl

/-- C8. For a session whose lookup succeeds and whose default flash queue is
empty (no entry under the flash key, or an empty slice there), `AddFlash(v)`
then `Flashes()` returns exactly `[v]`, and a second `Flashes()` right after
returns the empty sequence. -/
theorem AddFlash_then_Flashes_one_shot {σ : Type} (v : Value) (r r0 : Run σ) (g : GSession)
    (h : Session r = Except.ok (g, r0))
    (hq : valuesLookup g.Values (flashKey []) = none ∨
      valuesLookup g.Values (flashKey []) = some (Value.slice [])) :
    ∃ r1 r2 r3, AddFlash v [] r = Except.ok ((), r1) ∧
      Flashes [] r1 = Except.ok ([v], r2) ∧
      Flashes [] r2 = Except.ok ([], r3) := by
  have hfk : flashKey [] ≠ Key.nan := by simp [flashKey]
  have ha : g.AddFlash v [] =
      Except.ok (withValues g (valuesSet g.Values (flashKey []) (Value.slice [v]))) := by
    rcases hq with hq | hq <;> simp [GSession.AddFlash, hq, withValues]
  have h1 := AddFlash_of_Session v [] r r0 g h
  rw [ha] at h1
  have hf1 : GSession.Flashes
      (withValues g (valuesSet g.Values (flashKey []) (Value.slice [v]))) [] =
      Except.ok ([v], withValues g
        (valuesDelete (valuesSet g.Values (flashKey []) (Value.slice [v])) (flashKey []))) := by
    simp [GSession.Flashes, valuesLookup_valuesSet_self _ _ _ hfk, withValues]
  have h2 := Flashes_of_set []
    (setSession r0 (withValues g (valuesSet g.Values (flashKey []) (Value.slice [v]))) true)
    _ rfl
  rw [hf1] at h2
  have hf2 : GSession.Flashes (withValues g
        (valuesDelete (valuesSet g.Values (flashKey []) (Value.slice [v])) (flashKey []))) [] =
      Except.ok ([], withValues g
        (valuesDelete (valuesSet g.Values (flashKey []) (Value.slice [v])) (flashKey []))) := by
    simp [GSession.Flashes, valuesLookup_valuesDelete_self, withValues]
  have h3 := Flashes_of_set []
    (setSession (setSession r0
      (withValues g (valuesSet g.Values (flashKey []) (Value.slice [v]))) true)
      (withValues g
        (valuesDelete (valuesSet g.Values (flashKey []) (Value.slice [v])) (flashKey []))) true)
    _ rfl
  rw [hf2] at h3
  exact ⟨_, _, _, h1, h2, h3⟩

/-- Witness for C8: the record of `recordStore`, which has no flash queue,
and the flash "saved". -/
theorem AddFlash_then_Flashes_one_shot_witness :
    Session (newRun "sid" recordStore 0 0 ()) =
      Except.ok (recordSession, found (newRun "sid" recordStore 0 0 ()) () recordSession) ∧
    (valuesLookup recordSession.Values (flashKey []) = none ∨
      valuesLookup recordSession.Values (flashKey []) = some (Value.slice [])) ∧
    ∃ r1 r2 r3, AddFlash (Value.str "saved") [] (newRun "sid" recordStore 0 0 ()) =
        Except.ok ((), r1) ∧
      Flashes [] r1 = Except.ok ([Value.str "saved"], r2) ∧
      Flashes [] r2 = Except.ok ([], r3) :=
  ⟨rfl, Or.inl rfl, AddFlash_then_Flashes_one_shot (Value.str "saved")
    (newRun "sid" recordStore 0 0 ()) _ recordSession rfl (Or.inl rfl)⟩

theorem Delete_of_set {σ : Type} (key : Key) (r : Run σ) (g : GSession)
    (h : r.s.session = some g) (hk : key.hashable = true) :
    Delete key r = Except.ok ((),
      setSession r { g with Values := valuesDelete g.Values key } true) := by
  simp [Delete, Session_of_set r g h, setSession, hk]

theorem Key.not_goEq (a b : Key) :
    (!a.goEq b) = (decide (a = Key.nan) || decide (a ≠ b)) := by
  by_cases hn : a = Key.nan
  · subst hn
    simp [Key.goEq]
  · by_cases hab : a = b
    · subst hab
      simp [Key.goEq_self a hn, hn]
    · simp [Key.goEq_of_ne a b hab, hab]

theorem clearLoop_of_set {σ : Type} (keys : List Key) (r : Run σ) (g : GSession)
    (h : r.s.session = some g) (hk : ∀ k ∈ keys, k.hashable = true) :
    ∃ r1 g1, clearLoop keys r = Except.ok ((), r1) ∧ r1.s.session = some g1 ∧
      g1.Values =
        g.Values.filter (fun p => decide (p.1 = Key.nan) || decide (p.1 ∉ keys)) := by
  induction keys generalizing r g with
  | nil => exact ⟨r, g, rfl, h, by simp⟩
  | cons key rest ih =>
    have hrest : ∀ k ∈ rest, k.hashable = true :=
      fun k hm => hk k (List.mem_cons_of_mem _ hm)
    by_cases hl : key ∈ g.Values.map Prod.fst
    · obtain ⟨r1, g1, h1, h2, h3⟩ := ih
        (setSession r { g with Values := valuesDelete g.Values key } true)
        { g with Values := valuesDelete g.Values key } rfl hrest
      refine ⟨r1, g1, ?_, h2, ?_⟩
      · simp only [clearLoop, h, hl, decide_True, if_true,
          Delete_of_set key r g h (hk key (List.mem_cons_self _ _))]
        exact h1
      · rw [h3]
        simp only [valuesDelete, List.filter_filter]
        apply List.filter_congr
        intro p _
        rw [Key.not_goEq]
        by_cases hp1 : p.1 = key
        · rw [hp1]
          by_cases hp0 : key = Key.nan <;> by_cases hp2 : key ∈ rest <;> simp [hp0, hp2]
        · by_cases hp0 : p.1 = Key.nan <;> by_cases hp2 : p.1 ∈ rest <;>
            simp [hp0, hp1, hp2]
    · obtain ⟨r1, g1, h1, h2, h3⟩ := ih r g h hrest
      refine ⟨r1, g1, ?_, h2, ?_⟩
      · simp only [clearLoop, h, hl, decide_False, Bool.false_eq_true, if_false]
        exact h1
      · rw [h3]
        apply List.filter_congr
        intro p hp
        have hp1 : p.1 ≠ key := by
          intro e
          exact hl (e ▸ List.mem_map_of_mem Prod.fst hp)
        by_cases hp0 : p.1 = Key.nan <;> by_cases hp2 : p.1 ∈ rest <;> simp [hp0, hp1, hp2]

/-- What `Clear` leaves: on a session whose lookup succeeds, `Clear` returns and
removes every entry whose key is not NaN; when no key is NaN the value map is
empty afterwards and `Get(k)` returns nil for every key that can be hashed. -/
theorem Clear_removes_comparable_keys {σ : Type} (r r0 : Run σ) (g : GSession)
    (h : Session r = Except.ok (g, r0)) (hk : ∀ p ∈ g.Values, p.1.hashable = true) :
    ∃ r1 g1, Clear r = Except.ok ((), r1) ∧ r1.s.session = some g1 ∧
      g1.Values = g.Values.filter (fun p => decide (p.1 = Key.nan)) ∧
      ((∀ p ∈ g.Values, p.1 ≠ Key.nan) →
        g1.Values = [] ∧
        ∀ k, k.hashable = true → ∃ r2, Get k r1 = Except.ok (Value.nil, r2)) := by
  have hk' : ∀ k ∈ g.Values.map Prod.fst, k.hashable = true := by
    intro k hm
    obtain ⟨p, hp, e⟩ := List.mem_map.mp hm
    exact e ▸ hk p hp
  obtain ⟨r1, g1, h1, h2, h3⟩ :=
    clearLoop_of_set (g.Values.map Prod.fst) r0 g (Session_resolves r r0 g h) hk'
  have he : g1.Values = g.Values.filter (fun p => decide (p.1 = Key.nan)) := by
    rw [h3]
    apply List.filter_congr
    intro p hp
    have hm : p.1 ∈ g.Values.map Prod.fst := List.mem_map_of_mem Prod.fst hp
    simp [hm]
  refine ⟨r1, g1, ?_, h2, he, ?_⟩
  · simp only [Clear, h]
    exact h1
  · intro hn
    have hnil : g1.Values = [] := by
      rw [he, List.filter_eq_nil_iff]
      intro p hp
      simp [hn p hp]
    refine ⟨hnil, fun k hkk => ⟨r1, ?_⟩⟩
    rw [Get_of_Session k r1 r1 g1 (Session_of_set r1 g1 h2) hkk, hnil]
    rfl

/-- C9, at the key where the code departs from it. On the record of
`recordStore`, after `Set(NaN, 1)` the call `Clear()` returns and leaves the
NaN entry in the value map: the map has one entry, not none. -/
theorem Clear_leaves_NaN_entry :
    ∃ r1 r2 g2, runOps [Op.Set Key.nan (Value.int 1)] (newRun "sid" recordStore 0 0 ()) =
        Except.ok r1 ∧
      Clear r1 = Except.ok ((), r2) ∧
      r2.s.session = some g2 ∧
      g2.Values = [(Key.nan, Value.int 1)] ∧
      g2.Values.length = 1 :=
  ⟨_, _, _, rfl, rfl, rfl, rfl, rfl⟩

/-- `Set("lang", "go")`, then `Options{MaxAge: 60}`, then `Save()` on the record
of `recordStore`: the session stays dirty through `Options` and the store's
`Save` is called once. -/
theorem Options_after_Set_is_saved :
    ∃ r1, runOps [Op.Set (Key.str "lang") (Value.str "go"), Op.Options { MaxAge := 60 }]
        (newRun "sid" recordStore 0 0 ()) = Except.ok r1 ∧
      r1.s.written = true ∧ saveCount (Save r1) = some 1 :=
  ⟨_, rfl, rfl, rfl⟩

end Adapter

end Ginx
